import Mathlib

/-!
Shallow embedding of the Bot-Extended repository (core market-data provider,
metadata cache, and best-order strategy) together with proofs about the
properties claimed in its specification.

Sources embedded:
- src/strategies/best_order.py  (BestOrderStrategy.execute)
- src/core/market_utils.py      (MarketUtils: TTL metadata cache)
- src/core/realtime_market_data.py (RealTimeMarketDataProvider: stream
  supervision, snapshot store, start/stop protocol)

Python `Decimal` values are modelled exactly: a `Decimal` is a mantissa and a
decimal exponent; `quantize` rounds half-even to the exponent of its argument,
exactly as in the `decimal` module (default context rounding ROUND_HALF_EVEN).
Division is modelled exactly over ℚ (Python's context precision of 28
significant digits can only differ from the exact quotient on quotients within
10⁻²⁸ of a rounding boundary, which never matters at the step exponents used
here).  Fallible external calls (REST fetch, order placement) are modelled as
explicit parameters describing the external response.
-/

namespace BotExt

/-- Round a rational to the nearest integer, ties to even: the semantics of
`decimal.ROUND_HALF_EVEN`, the default rounding of Python's `Decimal` context
used by `Decimal.quantize` in `best_order.py` line 68. -/
def roundHalfEven (q : ℚ) : ℤ :=
  if q < (⌊q⌋ : ℚ) + 1 / 2 then ⌊q⌋
  else if (⌊q⌋ : ℚ) + 1 / 2 < q then ⌊q⌋ + 1
  else if ⌊q⌋ % 2 = 0 then ⌊q⌋ else ⌊q⌋ + 1

/-- Ten to an integer power, as a rational. -/
def pow10 (e : ℤ) : ℚ := (10 : ℚ) ^ e

/-- Python `str.upper()` restricted to ASCII (market names in this code base
are ASCII): uppercase every character of the string.  Defined through
`List.map` on the character list so that it evaluates by kernel reduction;
`pyUpper_eq_toUpper` below identifies it with `String.toUpper`. -/
def pyUpper (s : String) : String := String.mk (s.data.map Char.toUpper)

/-- Python `str.lower()` restricted to ASCII, analogous to `pyUpper`. -/
def pyLower (s : String) : String := String.mk (s.data.map Char.toLower)

/-- Sanity: `pyUpper` is exactly `String.toUpper`. -/
theorem pyUpper_eq_toUpper (s : String) : pyUpper s = s.toUpper :=
  (String.map_eq _ _).symm

/-- Sanity: `pyLower` is exactly `String.toLower`. -/
theorem pyLower_eq_toLower (s : String) : pyLower s = s.toLower :=
  (String.map_eq _ _).symm

/-- One value of Python's `Decimal`: mantissa times ten to the exponent.
`Decimal("0.01")` is `⟨1, -2⟩`. -/
structure Dec where
  mant : ℤ
  exp : ℤ
deriving DecidableEq

/-- Rational value of a decimal. -/
def Dec.val (d : Dec) : ℚ := (d.mant : ℚ) * pow10 d.exp

/-- Python `x.quantize(d)` with default rounding: round `q` half-even to the
decimal exponent `e` of the quantize argument (`best_order.py` line 68 uses the
market's `min_order_size_change` as that argument). -/
def quantize (q : ℚ) (e : ℤ) : ℚ :=
  (roundHalfEven (q * pow10 (-e)) : ℚ) * pow10 e

/-- Trading configuration of a market (`market_config.trading_config` in
`best_order.py` lines 65-66): the venue minimum order size and the size step.
The step is kept as a `Dec` because `quantize` uses its decimal exponent. -/
structure TradingConfig where
  min_order_size : ℚ
  min_order_size_change : Dec
deriving DecidableEq

/-- One cached market-metadata object (an element of
`markets_response.data` in `market_utils.py`).  `trading_config` is optional,
mirroring the `hasattr(market_config, 'trading_config')` check of
`best_order.py` line 30.  `daily_volume` is the parsed
`market_stats.daily_volume`: `none` models a missing or unparseable value
(the `float(...)` call of `market_utils.py` line 77 raising). -/
structure MarketInfo where
  name : String
  trading_config : Option TradingConfig
  last_price : ℚ
  daily_volume : Option ℚ
deriving DecidableEq

/-- One stored top-of-book snapshot (`_latest_market_data[market]` in
`realtime_market_data.py` lines 52-58).  A price of `none` models an absent or
empty (falsy) price string, matching the `realtime_prices.get('bid_price')`
truthiness checks of `best_order.py` lines 42 and 49. -/
structure Quote where
  bid_price : Option ℚ
  bid_qty : ℚ
  ask_price : Option ℚ
  ask_qty : ℚ
  timestamp : ℚ
deriving DecidableEq

/-- The `x10` SDK order side passed to `place_order`. -/
inductive OrderSide where
  | buy
  | sell
deriving DecidableEq

/-- The argument tuple of the `trading_client.place_order` call of
`best_order.py` lines 75-81. -/
structure OrderRequest where
  market : String
  quantity : ℚ
  price : ℚ
  side : OrderSide
  post_only : Bool
deriving DecidableEq

/-- Classification of an error message raised by `place_order`, matching the
substring tests of `best_order.py` lines 89-91 at the external boundary. -/
inductive PlaceError where
  | balanceExceeded
  | invalidPrecision
  | other
deriving DecidableEq

/-- Outcome of the external `place_order` call: an order id, or a raised
exception carrying a classified message. -/
inductive PlaceOutcome where
  | success (orderId : ℕ)
  | failure (e : PlaceError)
deriving DecidableEq

/-- The categorized outcome of one `BestOrderStrategy.execute` invocation.
Each failure constructor corresponds to one distinct logged failure path of
`best_order.py` (the Python function reports the category through a dedicated
`logger.error` message and then returns `None`; the success path returns the
order id). -/
inductive ExecResult where
  | placed (orderId : ℕ)
  | configUnavailable
  | quoteUnavailable
  | invalidSide
  | belowMinimumSize
  | insufficientBalance
  | precisionError
  | unclassified
deriving DecidableEq

/-- Lookup of `RealTimeMarketDataProvider.get_best_bid_ask`
(`realtime_market_data.py` lines 159-163): the market name is uppercased and
the snapshot store is read. -/
def get_best_bid_ask (store : String → Option Quote) (market_name : String) :
    Option Quote :=
  store (pyUpper market_name)

/-- Tail of `BestOrderStrategy.execute` once a reference price has been
selected (`best_order.py` lines 63-85 and the classifying handler of lines
87-95): a zero price makes the division raise `DivisionByZero`, caught by the
generic handler (unclassified); otherwise the quantity is the notional divided
by the price, quantized to the exponent of the size step; a quantity below the
minimum is rejected; otherwise the order is placed post-only and the external
outcome is classified.  The second component records the placement request
actually sent, `none` when no order was placed. -/
def placeWithPrice (tc : TradingConfig) (place : OrderRequest → PlaceOutcome)
    (market : String) (apiSide : OrderSide) (price : ℚ) (amount_usd : ℚ) :
    ExecResult × Option OrderRequest :=
  if price = 0 then (ExecResult.unclassified, none)
  else
    let quantity := quantize (amount_usd / price) tc.min_order_size_change.exp
    if quantity < tc.min_order_size then (ExecResult.belowMinimumSize, none)
    else
      let req : OrderRequest :=
        { market := market, quantity := quantity, price := price,
          side := apiSide, post_only := true }
      match place req with
      | PlaceOutcome.success oid => (ExecResult.placed oid, some req)
      | PlaceOutcome.failure PlaceError.balanceExceeded =>
          (ExecResult.insufficientBalance, some req)
      | PlaceOutcome.failure PlaceError.invalidPrecision =>
          (ExecResult.precisionError, some req)
      | PlaceOutcome.failure PlaceError.other =>
          (ExecResult.unclassified, some req)

/-- `BestOrderStrategy.execute` (`best_order.py` lines 26-95).
`meta` is the result of `self.get_market_info` (the metadata cache lookup,
keyed by the verbatim market name), `store` is the provider's snapshot store
(read through `get_best_bid_ask`, which uppercases), `place` describes the
external trading client's response to a placement request. -/
def execute (meta : String → Option MarketInfo) (store : String → Option Quote)
    (place : OrderRequest → PlaceOutcome)
    (market : String) (side : String) (amount_usd : ℚ) :
    ExecResult × Option OrderRequest :=
  match meta market with
  | none => (ExecResult.configUnavailable, none)
  | some market_config =>
    match market_config.trading_config with
    | none => (ExecResult.configUnavailable, none)
    | some tc =>
      match get_best_bid_ask store market with
      | none => (ExecResult.quoteUnavailable, none)
      | some realtime_prices =>
        if pyLower side = "bb" ∨ pyLower side = "buy" then
          match realtime_prices.bid_price with
          | none => (ExecResult.quoteUnavailable, none)
          | some p => placeWithPrice tc place market OrderSide.buy p amount_usd
        else if pyLower side = "ba" ∨ pyLower side = "sell" then
          match realtime_prices.ask_price with
          | none => (ExecResult.quoteUnavailable, none)
          | some p => placeWithPrice tc place market OrderSide.sell p amount_usd
        else (ExecResult.invalidSide, none)

/-! ## MetadataCache (`src/core/market_utils.py`)

Python dictionaries preserve insertion order, so the two dictionaries of
`MarketUtils` are modelled as association lists whose insert replaces an
existing key in place and appends a new key at the end.  `time.time()` is a
call parameter `now`; the external REST response of
`trading_client.markets_info.get_markets()` is a parameter, `none` modelling
the call raising (caught in `_fetch_and_cache_all_markets`, which then leaves
the cache untouched).  The number of bulk fetches a call performs is returned
alongside its result so that fetch counting can be stated. -/

/-- Python `dict.get`: the value stored for the key, if present. -/
def dictGet {α : Type} (d : List (String × α)) (k : String) : Option α :=
  match d with
  | [] => none
  | (k0, v0) :: rest => if k0 = k then some v0 else dictGet rest k

/-- Python `dict[k] = v`: replace the key in place if present, else append. -/
def dictInsert {α : Type} (d : List (String × α)) (k : String) (v : α) :
    List (String × α) :=
  match d with
  | [] => [(k, v)]
  | (k0, v0) :: rest =>
    if k0 = k then (k, v) :: rest else (k0, v0) :: dictInsert rest k v

/-- The two dictionaries owned by `MarketUtils` (`market_utils.py` lines
22-23): the market-object cache and the per-market fetch timestamps. -/
structure MarketUtilsState where
  market_cache : List (String × MarketInfo)
  cache_timestamps : List (String × ℚ)
deriving DecidableEq

/-- `MarketUtils._fetch_and_cache_all_markets` (`market_utils.py` lines
25-36): on a successful response every returned market is written to the cache
with the current time as its timestamp; on an exception (`response = none`)
the handler logs and leaves the cache unchanged. -/
def fetch_and_cache_all_markets (s : MarketUtilsState) (now : ℚ)
    (response : Option (List MarketInfo)) : MarketUtilsState :=
  match response with
  | none => s
  | some data =>
    data.foldl (fun st m =>
      { market_cache := dictInsert st.market_cache m.name m,
        cache_timestamps := dictInsert st.cache_timestamps m.name now }) s

/-- `MarketUtils.get_market_object` (`market_utils.py` lines 38-54).  The
cached object is returned without fetching when both dictionaries have the
market and the entry is fresh; the `ts ≠ 0` conjunct mirrors Python's
truthiness test `if cached_market and cache_timestamp and ...` (a float
timestamp of `0.0` is falsy).  Otherwise one bulk fetch runs and the cache is
consulted again.  Returns the result, the new state, and how many bulk fetches
were performed. -/
def get_market_object (s : MarketUtilsState) (market_name : String) (now : ℚ)
    (response : Option (List MarketInfo)) :
    Option MarketInfo × MarketUtilsState × ℕ :=
  match dictGet s.market_cache market_name,
        dictGet s.cache_timestamps market_name with
  | some cached_market, some ts =>
    if ts ≠ 0 ∧ now - ts < 60 then (some cached_market, s, 0)
    else
      let s2 := fetch_and_cache_all_markets s now response
      (dictGet s2.market_cache market_name, s2, 1)
  | _, _ =>
    let s2 := fetch_and_cache_all_markets s now response
    (dictGet s2.market_cache market_name, s2, 1)

/-- The stable descending sort of `market_utils.py` line 82
(`markets_list_to_sort.sort(key=lambda item: item[1], reverse=True)`): sort
(market, volume) pairs by volume, larger first, equal keys keeping their
original relative order. -/
def sortByVolume (l : List (MarketInfo × ℚ)) : List (MarketInfo × ℚ) :=
  List.insertionSort (fun a b => b.2 ≤ a.2) l

/-- Refresh step at the top of `MarketUtils.get_markets` (`market_utils.py`
lines 58-65): a bulk refresh runs only when both dictionaries are non-empty
and no timestamp is fresh (the `elif not self._market_cache` branch of line
63 is unreachable because the outer `if` of line 59 requires a non-empty
cache).  Returns the new state and the number of bulk fetches performed. -/
def get_markets_refresh (s : MarketUtilsState) (now : ℚ)
    (response : Option (List MarketInfo)) : MarketUtilsState × ℕ :=
  if s.market_cache ≠ [] ∧ s.cache_timestamps ≠ [] then
    if ¬ (s.cache_timestamps.any fun p => decide (now - p.2 < 60)) = true then
      (fetch_and_cache_all_markets s now response, 1)
    else (s, 0)
  else (s, 0)

/-- `MarketUtils.get_markets` (`market_utils.py` lines 56-85): the refresh
step above, then the return step of lines 67-85.  With `top_n` given, the
entries whose volume parsed (`daily_volume = some v`) are sorted by descending
volume and the first `top_n` are returned; without `top_n` the raw cached
values are returned in insertion order.  Returns the list, the new state, and
the number of bulk fetches performed. -/
def get_markets (s : MarketUtilsState) (top_n : Option ℕ) (now : ℚ)
    (response : Option (List MarketInfo)) :
    List MarketInfo × MarketUtilsState × ℕ :=
  let fetched := get_markets_refresh s now response
  let s2 := fetched.1
  let markets_list := s2.market_cache.map Prod.snd
  if markets_list = [] ∧ s2.market_cache = [] then ([], s2, fetched.2)
  else
    match top_n with
    | some n =>
      let markets_list_to_sort :=
        markets_list.filterMap fun m => m.daily_volume.map fun v => (m, v)
      (((sortByVolume markets_list_to_sort).take n).map Prod.fst, s2, fetched.2)
    | none => (markets_list, s2, fetched.2)

/-! ## StreamSupervisor (`src/core/realtime_market_data.py`)

The provider's mutable registries become one record of maps; the concurrent
interleaving of the listener tasks, `stop_specific_streams`, and
`start_streams` becomes a list of atomic events folded over the state.  Each
event is one lock-protected (or single-bytecode-dictionary) operation of the
source; `exited` is a ghost flag recording whether a market's listener task
has terminated, and `nextId` a ghost counter handing out task identities. -/

/-- One supervising task handle in `_connection_tasks`: an identity and
whether the task is done. -/
structure TaskRec where
  tid : ℕ
  done : Bool
deriving DecidableEq

/-- The registries of `RealTimeMarketDataProvider.__init__`
(`realtime_market_data.py` lines 21-27). -/
structure ProviderState where
  latest : String → Option Quote
  conns : String → Bool
  tasks : String → Option TaskRec
  active : String → Bool
  running : Bool
  nextId : ℕ
  exited : String → Bool

/-- Pointwise update of a map at one key. -/
def upd {α : Type} (f : String → α) (k : String) (v : α) : String → α :=
  fun x => if x = k then v else f x

/-- Atomic steps of the listener tasks and of `stop_specific_streams`:
`write` is the lock-guarded store write of lines 50-58 (skipped when the
market's `desiredActive` flag is false); `stopFlag`, `cancelTask`,
`closeConn`, `stopClear`, `awaitTask`, `delTaskRec` are the successive actions
of `stop_specific_streams` (lines 118, 123, 132, 136-141, 144, 151-152);
`exitCleanup` is the exiting listener's own cleanup of lines 84-88;
`startFlag` is the flag assignment of `start_streams` line 96, the only
operation that sets a market's flag to true. -/
inductive Ev where
  | write (m : String) (q : Quote)
  | stopFlag (m : String)
  | cancelTask (m : String)
  | closeConn (m : String)
  | stopClear (m : String)
  | awaitTask (m : String)
  | delTaskRec (m : String)
  | exitCleanup (m : String)
  | startFlag (m : String)
deriving DecidableEq

/-- Effect of one event on the provider state. -/
def applyEv (s : ProviderState) (e : Ev) : ProviderState :=
  match e with
  | Ev.write m q =>
    if s.active m then { s with latest := upd s.latest m (some q) } else s
  | Ev.stopFlag m => { s with active := upd s.active m false }
  | Ev.cancelTask _ => s
  | Ev.closeConn _ => s
  | Ev.stopClear m =>
    { s with latest := upd s.latest m none, conns := upd s.conns m false }
  | Ev.awaitTask m => { s with exited := upd s.exited m true }
  | Ev.delTaskRec m => { s with tasks := upd s.tasks m none }
  | Ev.exitCleanup m =>
    { s with latest := upd s.latest m none, conns := upd s.conns m false,
             exited := upd s.exited m true }
  | Ev.startFlag m => { s with active := upd s.active m true }

/-- Fold a sequence of events over the state. -/
def applyEvs (s : ProviderState) (evs : List Ev) : ProviderState :=
  evs.foldl applyEv s

/-- The sequence of actions `stop_specific_streams` performs for one market,
in source order (`realtime_market_data.py` lines 111-152): set the flag false,
cancel the task, close the socket, delete the quote and connection entries
under the lock, await the task, then delete the task record. -/
def stop_events (m : String) : List Ev :=
  [Ev.stopFlag m, Ev.cancelTask m, Ev.closeConn m, Ev.stopClear m,
   Ev.awaitTask m, Ev.delTaskRec m]

/-- The exiting listener task's own cleanup (`realtime_market_data.py` lines
83-88), run after its loop ends and before the task terminates. -/
def listener_exit_events (m : String) : List Ev :=
  [Ev.exitCleanup m]

/-- `stop_specific_streams` restricted to one market, including the
uppercase normalization of line 117. -/
def stop_one (s : ProviderState) (market_name_raw : String) : ProviderState :=
  applyEvs s (stop_events (pyUpper market_name_raw))

/-- Body of the `start_streams` loop for one market
(`realtime_market_data.py` lines 94-104): uppercase the name, set its flag
true, and spawn a fresh listener task only when no task is recorded or the
recorded one is done. -/
def start_one (s : ProviderState) (market_name_raw : String) : ProviderState :=
  let market_name := pyUpper market_name_raw
  let s1 := { s with active := upd s.active market_name true }
  match s1.tasks market_name with
  | none =>
    { s1 with
      tasks := upd s1.tasks market_name (some { tid := s1.nextId, done := false }),
      nextId := s1.nextId + 1 }
  | some t =>
    if t.done then
      { s1 with
        tasks := upd s1.tasks market_name (some { tid := s1.nextId, done := false }),
        nextId := s1.nextId + 1 }
    else s1

/-- `RealTimeMarketDataProvider.start_streams` (`realtime_market_data.py`
lines 90-109): set `_running` and run the loop body for every market. -/
def start_streams (s : ProviderState) (markets : List String) : ProviderState :=
  markets.foldl start_one { s with running := true }

/-! ## Concrete fixtures used by examples and witnesses -/

/-- Example trading configuration: minimum size 1, step `Decimal("0.01")`. -/
def tcEx : TradingConfig :=
  { min_order_size := 1, min_order_size_change := { mant := 1, exp := -2 } }

/-- Example metadata entry for the market BTC-USD. -/
def infoEx : MarketInfo :=
  { name := "BTC-USD", trading_config := some tcEx, last_price := 100,
    daily_volume := some 1000 }

/-- Example cached quote: bid 100, ask 101. -/
def quoteEx : Quote :=
  { bid_price := some 100, bid_qty := 1, ask_price := some 101, ask_qty := 1,
    timestamp := 0 }

/-- Example metadata lookup holding exactly the BTC-USD entry. -/
def metaEx : String → Option MarketInfo :=
  fun n => if n = "BTC-USD" then some infoEx else none

/-- Example snapshot store holding exactly the BTC-USD quote. -/
def storeEx : String → Option Quote :=
  fun n => if n = "BTC-USD" then some quoteEx else none

/-- Example trading client that accepts every order with id 42. -/
def placeEx : OrderRequest → PlaceOutcome := fun _ => PlaceOutcome.success 42

/-! ## Helper lemmas -/

/-- When the price is nonzero and the quantized quantity meets the minimum,
`placeWithPrice` sends exactly one post-only request at that price with the
quantized quantity. -/
theorem placeWithPrice_snd (tc : TradingConfig)
    (place : OrderRequest → PlaceOutcome) (market : String)
    (apiSide : OrderSide) (price amount_usd : ℚ) (hp : price ≠ 0)
    (hmin : tc.min_order_size ≤
      quantize (amount_usd / price) tc.min_order_size_change.exp) :
    (placeWithPrice tc place market apiSide price amount_usd).2 =
      some { market := market,
             quantity := quantize (amount_usd / price) tc.min_order_size_change.exp,
             price := price, side := apiSide, post_only := true } := by
  rw [placeWithPrice, if_neg hp]
  simp only [if_neg (not_lt.mpr hmin)]
  rcases place _ with _ | e
  · rfl
  · cases e <;> rfl

/-- A valid scalar below the surrogate range round-trips through
`Char.ofNat`. -/
theorem char_ofNat_toNat_small (n : ℕ) (h : n < 55296) :
    (Char.ofNat n).toNat = n := by
  rw [Char.ofNat, dif_pos (Or.inl h)]
  rfl

/-- `Char.toUpper` on an ASCII lowercase letter subtracts 32. -/
theorem char_toUpper_of_lower (c : Char)
    (h : 97 ≤ c.toNat ∧ c.toNat ≤ 122) :
    Char.toUpper c = Char.ofNat (c.toNat - 32) := by
  simp only [Char.toUpper]
  exact if_pos h

/-- `Char.toUpper` fixes every character that is not ASCII lowercase. -/
theorem char_toUpper_of_not_lower (c : Char)
    (h : ¬ (97 ≤ c.toNat ∧ c.toNat ≤ 122)) : Char.toUpper c = c := by
  simp only [Char.toUpper]
  exact if_neg h

/-- `Char.toUpper` is idempotent. -/
theorem char_toUpper_idem (c : Char) :
    Char.toUpper (Char.toUpper c) = Char.toUpper c := by
  by_cases h : 97 ≤ c.toNat ∧ c.toNat ≤ 122
  · rw [char_toUpper_of_lower c h]
    apply char_toUpper_of_not_lower
    rw [char_ofNat_toNat_small _ (by omega)]
    omega
  · rw [char_toUpper_of_not_lower c h]
    exact char_toUpper_of_not_lower c h

/-- Uppercasing is idempotent, hence the uppercase normalization done by the
provider's public operations is stable. -/
theorem pyUpper_idem (s : String) : pyUpper (pyUpper s) = pyUpper s := by
  show String.mk ((s.data.map Char.toUpper).map Char.toUpper) = _
  rw [List.map_map]
  exact congrArg String.mk (List.map_congr_left fun a _ => char_toUpper_idem a)

/-! ## Claims about the best-order strategy -/

/-- C1: whenever metadata (with min size and size step) and a cached quote
are both present, a buy-side `execute` prices at the cached best bid and a
sell-side one at the cached best ask; the quantity sent is the notional
divided by that price, rounded half-even to the size step's decimal exponent
(the venue quantization rule applied by `Decimal.quantize`) in exact decimal
arithmetic; and the order is placed post-only at that price.  The closed
conjuncts are the spec's examples: buy 1000 with cached bid 100 and step 0.01
places quantity 10.00 at price 100; sell 1000 computes quantity against ask
101 (placing 9.90). -/
theorem claim_C1_best_order_price_quantity :
    (∀ (meta : String → Option MarketInfo) (store : String → Option Quote)
       (place : OrderRequest → PlaceOutcome) (market side : String)
       (amount_usd : ℚ) (cfg : MarketInfo) (tc : TradingConfig) (q : Quote)
       (bp ap : ℚ),
       meta market = some cfg → cfg.trading_config = some tc →
       store (pyUpper market) = some q →
       q.bid_price = some bp → q.ask_price = some ap → bp ≠ 0 → ap ≠ 0 →
       ((pyLower side = "bb" ∨ pyLower side = "buy") →
        tc.min_order_size ≤
          quantize (amount_usd / bp) tc.min_order_size_change.exp →
        (execute meta store place market side amount_usd).2 =
          some { market := market,
                 quantity :=
                   quantize (amount_usd / bp) tc.min_order_size_change.exp,
                 price := bp, side := OrderSide.buy, post_only := true }) ∧
       ((pyLower side = "ba" ∨ pyLower side = "sell") →
        tc.min_order_size ≤
          quantize (amount_usd / ap) tc.min_order_size_change.exp →
        (execute meta store place market side amount_usd).2 =
          some { market := market,
                 quantity :=
                   quantize (amount_usd / ap) tc.min_order_size_change.exp,
                 price := ap, side := OrderSide.sell, post_only := true })) ∧
    execute metaEx storeEx placeEx "BTC-USD" "buy" 1000 =
      (ExecResult.placed 42,
       some { market := "BTC-USD", quantity := 10, price := 100,
              side := OrderSide.buy, post_only := true }) ∧
    execute metaEx storeEx placeEx "BTC-USD" "sell" 1000 =
      (ExecResult.placed 42,
       some { market := "BTC-USD", quantity := 99 / 10, price := 101,
              side := OrderSide.sell, post_only := true }) := by
  refine ⟨?_, ?_, ?_⟩
  · intro meta store place market side amount_usd cfg tc q bp ap
      h1 h2 h3 hbp hap hbp0 hap0
    refine ⟨?_, ?_⟩
    · intro hs hmin
      simp only [execute, get_best_bid_ask, h1, h2, h3]
      rcases hs with hs | hs
      · rw [hs, if_pos (Or.inl rfl)]
        simp only [hbp]
        exact placeWithPrice_snd tc place market OrderSide.buy bp amount_usd
          hbp0 hmin
      · rw [hs, if_pos (Or.inr rfl)]
        simp only [hbp]
        exact placeWithPrice_snd tc place market OrderSide.buy bp amount_usd
          hbp0 hmin
    · intro hs hmin
      simp only [execute, get_best_bid_ask, h1, h2, h3]
      rcases hs with hs | hs
      · rw [hs, if_neg (by decide), if_pos (Or.inl rfl)]
        simp only [hap]
        exact placeWithPrice_snd tc place market OrderSide.sell ap amount_usd
          hap0 hmin
      · rw [hs, if_neg (by decide), if_pos (Or.inr rfl)]
        simp only [hap]
        exact placeWithPrice_snd tc place market OrderSide.sell ap amount_usd
          hap0 hmin
  · have hu : pyUpper "BTC-USD" = "BTC-USD" := by decide
    have hb : pyLower "buy" = "buy" := by decide
    simp only [execute, get_best_bid_ask, metaEx, storeEx, placeEx, infoEx,
      quoteEx, tcEx, hu, hb, placeWithPrice]
    norm_num [quantize, pow10, roundHalfEven]
  · have hu : pyUpper "BTC-USD" = "BTC-USD" := by decide
    have hb : pyLower "sell" = "sell" := by decide
    have hne1 : ¬ (("sell" : String) = "bb") := by decide
    have hne2 : ¬ (("sell" : String) = "buy") := by decide
    simp only [execute, get_best_bid_ask, metaEx, storeEx, placeEx, infoEx,
      quoteEx, tcEx, hu, hb, hne1, hne2, placeWithPrice]
    norm_num [quantize, pow10, roundHalfEven]

/-- Witness for C1: the buy-side clause applied to the concrete fixtures. -/
theorem claim_C1_best_order_price_quantity_witness :
    (execute metaEx storeEx placeEx "BTC-USD" "buy" 1000).2 =
      some { market := "BTC-USD",
             quantity := quantize (1000 / 100) tcEx.min_order_size_change.exp,
             price := 100, side := OrderSide.buy, post_only := true } :=
  (claim_C1_best_order_price_quantity.1 metaEx storeEx placeEx "BTC-USD" "buy"
      1000 infoEx tcEx quoteEx 100 101 rfl rfl (by decide) rfl rfl
      (by decide) (by decide)).1 (Or.inr (by decide))
    (by norm_num [quantize, pow10, roundHalfEven, tcEx])

/-- C3 counterexample: on a market with no cached quote AND no metadata, the
call fails with ConfigurationUnavailable — the metadata check of
`best_order.py` lines 29-32 runs before the quote check of lines 35-38 — so
it does not fail with QuoteUnavailable as the claim states for every
invocation with no cached quote. -/
theorem claim_C3_counterexample :
    execute (fun _ => none) (fun _ => none) placeEx "BTC-USD" "buy" 1000 =
      (ExecResult.configUnavailable, none) ∧
    ExecResult.configUnavailable ≠ ExecResult.quoteUnavailable :=
  ⟨rfl, by decide⟩

/-- C3 amended: provided metadata with a trading configuration is available
for the market (fresh or stale), `execute` on a market with no cached quote
fails with QuoteUnavailable and places no order, for every side and notional;
in particular no metadata-sourced price (such as the cached `last_price`) is
ever substituted to price an order. -/
theorem claim_C3_no_quote_fails_closed
    (meta : String → Option MarketInfo) (store : String → Option Quote)
    (place : OrderRequest → PlaceOutcome) (market side : String)
    (amount_usd : ℚ) (cfg : MarketInfo) (tc : TradingConfig)
    (h1 : meta market = some cfg) (h2 : cfg.trading_config = some tc)
    (h3 : store (pyUpper market) = none) :
    execute meta store place market side amount_usd =
      (ExecResult.quoteUnavailable, none) := by
  simp only [execute, get_best_bid_ask, h1, h2, h3]

/-- Witness for the amended C3: metadata for BTC-USD is present and fresh,
the snapshot store is empty, and the call reports QuoteUnavailable. -/
theorem claim_C3_no_quote_fails_closed_witness :
    execute metaEx (fun _ => none) placeEx "BTC-USD" "buy" 1000 =
      (ExecResult.quoteUnavailable, none) :=
  claim_C3_no_quote_fails_closed metaEx (fun _ => none) placeEx "BTC-USD"
    "buy" 1000 infoEx tcEx rfl rfl rfl

/-- C4: whenever the step-rounded quantity is strictly below the market's
minimum order size, `execute` fails with BelowMinimumSize and no order is
placed — the quantity is never rounded up to the minimum.  The closed
conjunct is the spec's example: a computed quantity of 0.5 (50 USD at price
100) against minimum size 1 is rejected. -/
theorem claim_C4_below_minimum_rejected :
    (∀ (meta : String → Option MarketInfo) (store : String → Option Quote)
       (place : OrderRequest → PlaceOutcome) (market side : String)
       (amount_usd : ℚ) (cfg : MarketInfo) (tc : TradingConfig) (q : Quote)
       (bp : ℚ),
       meta market = some cfg → cfg.trading_config = some tc →
       store (pyUpper market) = some q → q.bid_price = some bp → bp ≠ 0 →
       (pyLower side = "bb" ∨ pyLower side = "buy") →
       quantize (amount_usd / bp) tc.min_order_size_change.exp <
         tc.min_order_size →
       execute meta store place market side amount_usd =
         (ExecResult.belowMinimumSize, none)) ∧
    (∀ (meta : String → Option MarketInfo) (store : String → Option Quote)
       (place : OrderRequest → PlaceOutcome) (market side : String)
       (amount_usd : ℚ) (cfg : MarketInfo) (tc : TradingConfig) (q : Quote)
       (ap : ℚ),
       meta market = some cfg → cfg.trading_config = some tc →
       store (pyUpper market) = some q → q.ask_price = some ap → ap ≠ 0 →
       (pyLower side = "ba" ∨ pyLower side = "sell") →
       quantize (amount_usd / ap) tc.min_order_size_change.exp <
         tc.min_order_size →
       execute meta store place market side amount_usd =
         (ExecResult.belowMinimumSize, none)) ∧
    execute metaEx storeEx placeEx "BTC-USD" "buy" 50 =
      (ExecResult.belowMinimumSize, none) ∧
    quantize (50 / 100) tcEx.min_order_size_change.exp = 1 / 2 := by
  refine ⟨?_, ?_, ?_, ?_⟩
  · intro meta store place market side amount_usd cfg tc q bp
      h1 h2 h3 hbp hbp0 hs hlt
    simp only [execute, get_best_bid_ask, h1, h2, h3]
    rcases hs with hs | hs
    · rw [hs, if_pos (Or.inl rfl)]
      simp only [hbp]
      rw [placeWithPrice, if_neg hbp0]
      simp only [if_pos hlt]
    · rw [hs, if_pos (Or.inr rfl)]
      simp only [hbp]
      rw [placeWithPrice, if_neg hbp0]
      simp only [if_pos hlt]
  · intro meta store place market side amount_usd cfg tc q ap
      h1 h2 h3 hap hap0 hs hlt
    simp only [execute, get_best_bid_ask, h1, h2, h3]
    rcases hs with hs | hs
    · rw [hs, if_neg (by decide), if_pos (Or.inl rfl)]
      simp only [hap]
      rw [placeWithPrice, if_neg hap0]
      simp only [if_pos hlt]
    · rw [hs, if_neg (by decide), if_pos (Or.inr rfl)]
      simp only [hap]
      rw [placeWithPrice, if_neg hap0]
      simp only [if_pos hlt]
  · have hu : pyUpper "BTC-USD" = "BTC-USD" := by decide
    have hb : pyLower "buy" = "buy" := by decide
    simp only [execute, get_best_bid_ask, metaEx, storeEx, placeEx, infoEx,
      quoteEx, tcEx, hu, hb, placeWithPrice]
    norm_num [quantize, pow10, roundHalfEven]
  · norm_num [quantize, pow10, roundHalfEven, tcEx]

/-- Witness for C4: 50 USD at bid 100 rounds to quantity 0.5, below the
minimum size 1, and the call is rejected with no placement. -/
theorem claim_C4_below_minimum_rejected_witness :
    execute metaEx storeEx placeEx "BTC-USD" "buy" 50 =
      (ExecResult.belowMinimumSize, none) :=
  claim_C4_below_minimum_rejected.1 metaEx storeEx placeEx "BTC-USD" "buy" 50
    infoEx tcEx quoteEx 100 rfl rfl (by decide) rfl (by decide)
    (Or.inr (by decide))
    (by norm_num [quantize, pow10, roundHalfEven, tcEx])

/-- The placement request `execute` sends for the standard fixtures. -/
def reqEx : OrderRequest :=
  { market := "BTC-USD", quantity := 10, price := 100,
    side := OrderSide.buy, post_only := true }

/-- C8: each failure kind of the spec's error table is reachable as the
categorized outcome of a concrete `execute` invocation, and the seven failure
kinds are pairwise distinct values — the Python function reports each through
its own dedicated log message and returns without raising (the whole body sits
under a catch-all handler, and `execute` here is a total function). -/
theorem claim_C8_failures_categorized :
    execute (fun _ => none) storeEx placeEx "BTC-USD" "buy" 1000 =
      (ExecResult.configUnavailable, none) ∧
    execute metaEx (fun _ => none) placeEx "BTC-USD" "buy" 1000 =
      (ExecResult.quoteUnavailable, none) ∧
    execute metaEx storeEx placeEx "BTC-USD" "hold" 1000 =
      (ExecResult.invalidSide, none) ∧
    execute metaEx storeEx placeEx "BTC-USD" "buy" 50 =
      (ExecResult.belowMinimumSize, none) ∧
    execute metaEx storeEx
        (fun _ => PlaceOutcome.failure PlaceError.balanceExceeded)
        "BTC-USD" "buy" 1000 = (ExecResult.insufficientBalance, some reqEx) ∧
    execute metaEx storeEx
        (fun _ => PlaceOutcome.failure PlaceError.invalidPrecision)
        "BTC-USD" "buy" 1000 = (ExecResult.precisionError, some reqEx) ∧
    execute metaEx storeEx (fun _ => PlaceOutcome.failure PlaceError.other)
        "BTC-USD" "buy" 1000 = (ExecResult.unclassified, some reqEx) ∧
    List.Pairwise (fun a b => a ≠ b)
      [ExecResult.configUnavailable, ExecResult.quoteUnavailable,
       ExecResult.invalidSide, ExecResult.belowMinimumSize,
       ExecResult.insufficientBalance, ExecResult.precisionError,
       ExecResult.unclassified] := by
  have hu : pyUpper "BTC-USD" = "BTC-USD" := by decide
  have hb : pyLower "buy" = "buy" := by decide
  have hh : pyLower "hold" = "hold" := by decide
  have hne1 : ¬ (("hold" : String) = "bb") := by decide
  have hne2 : ¬ (("hold" : String) = "buy") := by decide
  have hne3 : ¬ (("hold" : String) = "ba") := by decide
  have hne4 : ¬ (("hold" : String) = "sell") := by decide
  refine ⟨rfl, ?_, ?_, ?_, ?_, ?_, ?_, by decide⟩ <;>
    simp only [execute, get_best_bid_ask, metaEx, storeEx, placeEx, infoEx,
      quoteEx, tcEx, reqEx, hu, hb, hh, hne1, hne2, hne3, hne4,
      placeWithPrice] <;>
    norm_num [quantize, pow10, roundHalfEven]

/-! ## Claims about the stream supervisor -/

/-- An idle provider with no data, used to instantiate trace claims. -/
def provEx : ProviderState :=
  { latest := fun _ => none, conns := fun _ => false, tasks := fun _ => none,
    active := fun _ => false, running := true, nextId := 0,
    exited := fun _ => false }

/-- A provider with a live BTC-USD listener holding a cached quote. -/
def provRunEx : ProviderState :=
  { latest := fun n => if n = "BTC-USD" then some quoteEx else none,
    conns := fun n => if n = "BTC-USD" then true else false,
    tasks := fun n =>
      if n = "BTC-USD" then some { tid := 0, done := false } else none,
    active := fun n => if n = "BTC-USD" then true else false,
    running := true, nextId := 1, exited := fun _ => false }

/-- Every event other than `startFlag m` keeps a stopped market stopped: the
flag stays false and the snapshot entry stays absent. -/
theorem applyEv_preserves_stopped (s : ProviderState) (m : String) (e : Ev)
    (hne : e ≠ Ev.startFlag m) (ha : s.active m = false)
    (hl : s.latest m = none) :
    (applyEv s e).active m = false ∧ (applyEv s e).latest m = none := by
  cases e with
  | write m' q =>
    by_cases hact : s.active m' = true
    · simp only [applyEv, if_pos hact]
      refine ⟨ha, ?_⟩
      simp only [upd]
      by_cases hm : m = m'
      · rw [hm] at ha; rw [ha] at hact; cases hact
      · simp [hm, hl]
    · simp only [applyEv, if_neg hact]
      exact ⟨ha, hl⟩
  | stopFlag m' =>
    refine ⟨?_, hl⟩
    simp only [applyEv, upd]
    by_cases hm : m = m' <;> simp [hm, ha]
  | cancelTask m' => exact ⟨ha, hl⟩
  | closeConn m' => exact ⟨ha, hl⟩
  | stopClear m' =>
    refine ⟨ha, ?_⟩
    simp only [applyEv, upd]
    by_cases hm : m = m' <;> simp [hm, hl]
  | awaitTask m' => exact ⟨ha, hl⟩
  | delTaskRec m' => exact ⟨ha, hl⟩
  | exitCleanup m' =>
    refine ⟨ha, ?_⟩
    simp only [applyEv, upd]
    by_cases hm : m = m' <;> simp [hm, hl]
  | startFlag m' =>
    have hmm : m' ≠ m := fun h => hne (by rw [h])
    refine ⟨?_, hl⟩
    simp only [applyEv, upd]
    have : ¬ (m = m') := fun h => hmm h.symm
    simp [this, ha]

/-- A stopped market stays stopped along any event sequence that never sets
its flag back to true. -/
theorem applyEvs_preserves_stopped (s : ProviderState) (m : String)
    (evs : List Ev) (hne : ∀ e ∈ evs, e ≠ Ev.startFlag m)
    (ha : s.active m = false) (hl : s.latest m = none) :
    (applyEvs s evs).active m = false ∧ (applyEvs s evs).latest m = none := by
  induction evs generalizing s with
  | nil => exact ⟨ha, hl⟩
  | cons e rest ih =>
    have h := applyEv_preserves_stopped s m e (hne e (by simp)) ha hl
    exact ih (applyEv s e) (fun e' he' => hne e' (by simp [he'])) h.1 h.2

/-- C2: the store write of the listener is guarded by a recheck of the
market's `desiredActive` flag under the store lock, so a write for a market
whose flag is false changes nothing; once a market is stopped (flag false,
entry deleted), its snapshot entry stays absent along any sequence of events
that does not start the market again; and in particular a message still in
flight when the full stop sequence completes is skipped, leaving
`get_best_bid_ask` absent. -/
theorem claim_C2_no_write_after_stop :
    (∀ (s : ProviderState) (m : String) (q : Quote),
       s.active m = false → applyEv s (Ev.write m q) = s) ∧
    (∀ (s : ProviderState) (m : String) (evs : List Ev),
       s.active m = false → s.latest m = none →
       (∀ e ∈ evs, e ≠ Ev.startFlag m) →
       (applyEvs s evs).latest m = none ∧
       (applyEvs s evs).active m = false) ∧
    (∀ (s : ProviderState) (m : String) (q : Quote),
       get_best_bid_ask
         (applyEvs s
           (stop_events (pyUpper m) ++ [Ev.write (pyUpper m) q])).latest m =
         none) := by
  refine ⟨?_, ?_, ?_⟩
  · intro s m q ha
    simp only [applyEv, ha]
    simp
  · intro s m evs ha hl hne
    have h := applyEvs_preserves_stopped s m evs hne ha hl
    exact ⟨h.2, h.1⟩
  · intro s m q
    simp [get_best_bid_ask, applyEvs, stop_events, applyEv, upd]

/-- Witness for C2: an in-flight write for a stopped market leaves the empty
store empty. -/
theorem claim_C2_no_write_after_stop_witness :
    provEx.active "BTC-USD" = false ∧ provEx.latest "BTC-USD" = none ∧
    (applyEvs provEx [Ev.write "BTC-USD" quoteEx]).latest "BTC-USD" = none :=
  ⟨rfl, rfl,
   (claim_C2_no_write_after_stop.2.1 provEx "BTC-USD"
      [Ev.write "BTC-USD" quoteEx] rfl rfl
      (by intro e he; simp at he; subst he; decide)).1⟩

/-- C6 counterexample: `stop_specific_streams` itself deletes the market's
cached quote (and connection entry) under the lock before awaiting the
supervising task: after the first four stop actions the quote is gone while
the task has not exited, and the deleting action is one of the stopper's own
actions — contradicting the claim that the deletion happens only after the
task has fully exited and is performed by the exiting task, not the
stopper. -/
theorem claim_C6_counterexample :
    provRunEx.latest "BTC-USD" = some quoteEx ∧
    (applyEvs provRunEx (List.take 4 (stop_events "BTC-USD"))).latest
        "BTC-USD" = none ∧
    (applyEvs provRunEx (List.take 4 (stop_events "BTC-USD"))).exited
        "BTC-USD" = false ∧
    Ev.stopClear "BTC-USD" ∈ stop_events "BTC-USD" := by
  refine ⟨rfl, ?_, ?_, by decide⟩ <;>
    simp [applyEvs, stop_events, applyEv, upd, provRunEx]

/-- C6 amended: the stopper deletes the market's quote and connection entries
itself (action index 3) before awaiting the task's exit (index 4), and
removes the supervision (task) record only after that await (index 5); the
quote deletion touches neither the task registry nor the exit state; the
exiting listener task additionally deletes its own quote and connection
entries and only then terminates. -/
theorem claim_C6_cleanup_responsibility :
    (∀ m : String, ∃ i j k : ℕ, i < j ∧ j < k ∧
       (stop_events m).get? i = some (Ev.stopClear m) ∧
       (stop_events m).get? j = some (Ev.awaitTask m) ∧
       (stop_events m).get? k = some (Ev.delTaskRec m)) ∧
    (∀ (s : ProviderState) (m : String),
       (applyEv s (Ev.stopClear m)).tasks = s.tasks ∧
       (applyEv s (Ev.stopClear m)).exited = s.exited) ∧
    (∀ (s : ProviderState) (m : String),
       (applyEvs s (listener_exit_events m)).latest m = none ∧
       (applyEvs s (listener_exit_events m)).conns m = false ∧
       (applyEvs s (listener_exit_events m)).exited m = true) := by
  refine ⟨?_, ?_, ?_⟩
  · intro m
    exact ⟨3, 4, 5, by omega, by omega, rfl, rfl, rfl⟩
  · intro s m
    exact ⟨rfl, rfl⟩
  · intro s m
    refine ⟨?_, ?_, ?_⟩ <;>
      simp [applyEvs, listener_exit_events, applyEv, upd]

/-- When a live task is recorded for the (uppercased) market, the start loop
body only sets the flag: tasks and the id counter are untouched. -/
theorem start_one_live (s : ProviderState) (m : String) (t : TaskRec)
    (h : s.tasks (pyUpper m) = some t) (hd : t.done = false) :
    start_one s m =
      { s with active := upd s.active (pyUpper m) true } := by
  rw [start_one]
  simp only [h, hd]
  rfl

/-- When no task is recorded for the (uppercased) market, or the recorded one
is done, the start loop body spawns a fresh task. -/
theorem start_one_spawn (s : ProviderState) (m : String)
    (h : s.tasks (pyUpper m) = none ∨
      ∃ t, s.tasks (pyUpper m) = some t ∧ t.done = true) :
    start_one s m =
      { s with active := upd s.active (pyUpper m) true,
               tasks := upd s.tasks (pyUpper m)
                 (some { tid := s.nextId, done := false }),
               nextId := s.nextId + 1 } := by
  rw [start_one]
  rcases h with h | ⟨t, h, hd⟩
  · simp only [h]
  · simp only [h, hd]
    rfl

/-- `start_streams` on a single market is one pass of the loop body. -/
theorem start_streams_one (s : ProviderState) (m : String) :
    start_streams s [m] = start_one { s with running := true } m := rfl

/-- Starting a single market whose recorded task is live only sets the flag:
the task registry and the identity counter are unchanged. -/
theorem start_streams_live (s : ProviderState) (m : String) (t : TaskRec)
    (h : s.tasks (pyUpper m) = some t) (hd : t.done = false) :
    (start_streams s [m]).tasks = s.tasks ∧
    (start_streams s [m]).nextId = s.nextId ∧
    (start_streams s [m]).active (pyUpper m) = true := by
  rw [start_streams_one, start_one_live { s with running := true } m t h hd]
  exact ⟨rfl, rfl, by simp [upd]⟩

/-- After starting a single market, the task recorded for it is live. -/
theorem start_streams_task_live (s : ProviderState) (m : String) :
    ∃ t, (start_streams s [m]).tasks (pyUpper m) = some t ∧
      t.done = false := by
  rw [start_streams_one]
  rcases h : s.tasks (pyUpper m) with _ | t
  · rw [start_one_spawn { s with running := true } m (Or.inl h)]
    exact ⟨{ tid := s.nextId, done := false }, by simp [upd], rfl⟩
  · cases hd : t.done
    · rw [start_one_live { s with running := true } m t h hd]
      exact ⟨t, h, hd⟩
    · rw [start_one_spawn { s with running := true } m (Or.inr ⟨t, h, hd⟩)]
      exact ⟨{ tid := s.nextId, done := false }, by simp [upd], rfl⟩

/-- C9: `start_streams` is idempotent per market — starting a market whose
recorded supervising task is still live sets its flag true and neither
replaces the task map nor consumes a task identity, a fresh task is spawned
exactly when none is recorded or the recorded one has exited, and repeating a
start leaves the task registry and the identity counter unchanged, so at most
one logical supervising task exists per market however often start is
called. -/
theorem claim_C9_start_idempotent :
    (∀ (s : ProviderState) (m : String) (t : TaskRec),
       s.tasks (pyUpper m) = some t → t.done = false →
       (start_streams s [m]).tasks = s.tasks ∧
       (start_streams s [m]).nextId = s.nextId ∧
       (start_streams s [m]).active (pyUpper m) = true) ∧
    (∀ (s : ProviderState) (m : String),
       (s.tasks (pyUpper m) = none ∨
        ∃ t, s.tasks (pyUpper m) = some t ∧ t.done = true) →
       (start_streams s [m]).nextId = s.nextId + 1 ∧
       (start_streams s [m]).tasks (pyUpper m) =
         some { tid := s.nextId, done := false }) ∧
    (∀ (s : ProviderState) (m : String),
       (start_streams (start_streams s [m]) [m]).tasks =
         (start_streams s [m]).tasks ∧
       (start_streams (start_streams s [m]) [m]).nextId =
         (start_streams s [m]).nextId) := by
  refine ⟨?_, ?_, ?_⟩
  · intro s m t h hd
    exact start_streams_live s m t h hd
  · intro s m h
    rw [start_streams_one, start_one_spawn { s with running := true } m h]
    exact ⟨rfl, by simp [upd]⟩
  · intro s m
    obtain ⟨t, ht, hd⟩ := start_streams_task_live s m
    exact ⟨(start_streams_live _ m t ht hd).1,
           (start_streams_live _ m t ht hd).2.1⟩

/-- Witness for C9: starting BTC-USD while its recorded task is live keeps
the registry and counter unchanged. -/
theorem claim_C9_start_idempotent_witness :
    provRunEx.tasks (pyUpper "BTC-USD") = some { tid := 0, done := false } ∧
    (start_streams provRunEx ["BTC-USD"]).tasks = provRunEx.tasks ∧
    (start_streams provRunEx ["BTC-USD"]).nextId = provRunEx.nextId :=
  ⟨by decide,
   (claim_C9_start_idempotent.1 provRunEx "BTC-USD" { tid := 0, done := false }
      (by decide) rfl).1,
   (claim_C9_start_idempotent.1 provRunEx "BTC-USD" { tid := 0, done := false }
      (by decide) rfl).2.1⟩

/-- C10: the provider's public operations normalize the market name to
uppercase — `get_best_bid_ask` agrees on a name and its uppercased form, and
starting or stopping with any casing affects exactly the uppercase-keyed
entry, leaving all other keys untouched — while the strategy's metadata
lookup uses the market name verbatim, so the concrete lowercase invocation
finds the cached quote yet misses its metadata and fails with
ConfigurationUnavailable. -/
theorem claim_C10_uppercase_normalization :
    (∀ (store : String → Option Quote) (m : String),
       get_best_bid_ask store m = get_best_bid_ask store (pyUpper m)) ∧
    (∀ (s : ProviderState) (m : String),
       (start_streams s [m]).active (pyUpper m) = true ∧
       ∀ k, k ≠ pyUpper m →
         (start_streams s [m]).active k = s.active k ∧
         (start_streams s [m]).tasks k = s.tasks k ∧
         (start_streams s [m]).latest k = s.latest k) ∧
    (∀ (s : ProviderState) (m : String),
       (stop_one s m).active (pyUpper m) = false ∧
       (stop_one s m).latest (pyUpper m) = none ∧
       ∀ k, k ≠ pyUpper m →
         (stop_one s m).active k = s.active k ∧
         (stop_one s m).latest k = s.latest k) ∧
    (execute metaEx storeEx placeEx "btc-usd" "buy" 1000 =
       (ExecResult.configUnavailable, none) ∧
     get_best_bid_ask storeEx "btc-usd" = some quoteEx) := by
  refine ⟨?_, ?_, ?_, rfl, rfl⟩
  · intro store m
    simp [get_best_bid_ask, pyUpper_idem]
  · intro s m
    constructor
    · rcases h : s.tasks (pyUpper m) with _ | t
      · rw [start_streams_one, start_one_spawn { s with running := true } m
          (Or.inl h)]
        simp [upd]
      · cases hd : t.done
        · exact (start_streams_live s m t h hd).2.2
        · rw [start_streams_one, start_one_spawn { s with running := true } m
            (Or.inr ⟨t, h, hd⟩)]
          simp [upd]
    · intro k hk
      have hk' : ¬ (k = pyUpper m) := hk
      rcases h : s.tasks (pyUpper m) with _ | t
      · rw [start_streams_one, start_one_spawn { s with running := true } m
          (Or.inl h)]
        simp [upd, hk']
      · cases hd : t.done
        · rw [start_streams_one,
            start_one_live { s with running := true } m t h hd]
          simp [upd, hk']
        · rw [start_streams_one, start_one_spawn { s with running := true } m
            (Or.inr ⟨t, h, hd⟩)]
          simp [upd, hk']
  · intro s m
    refine ⟨?_, ?_, ?_⟩
    · simp [stop_one, applyEvs, stop_events, applyEv, upd]
    · simp [stop_one, applyEvs, stop_events, applyEv, upd]
    · intro k hk
      have hk' : ¬ (k = pyUpper m) := hk
      constructor <;>
        simp [stop_one, applyEvs, stop_events, applyEv, upd, hk']

/-- Witness for C10: stopping with the lowercase name clears exactly the
uppercase key, leaving the unrelated key ETH-USD untouched. -/
theorem claim_C10_uppercase_normalization_witness :
    (("ETH-USD" : String) ≠ pyUpper "btc-usd") ∧
    (stop_one provRunEx "btc-usd").latest "ETH-USD" =
      provRunEx.latest "ETH-USD" ∧
    (stop_one provRunEx "btc-usd").latest (pyUpper "btc-usd") = none :=
  ⟨by decide,
   ((claim_C10_uppercase_normalization.2.2.1 provRunEx "btc-usd").2.2
      "ETH-USD" (by decide)).2,
   (claim_C10_uppercase_normalization.2.2.1 provRunEx "btc-usd").2.1⟩

/-! ## Claims about the metadata cache -/

/-- Inserting a key makes it retrievable. -/
theorem dictGet_insert_self {α : Type} (d : List (String × α)) (k : String)
    (v : α) : dictGet (dictInsert d k v) k = some v := by
  induction d with
  | nil => simp [dictInsert, dictGet]
  | cons p rest ih =>
    by_cases h : p.1 = k
    · simp [dictInsert, dictGet, h]
    · simp [dictInsert, dictGet, h, ih]

/-- Inserting one key does not change the others. -/
theorem dictGet_insert_ne {α : Type} (d : List (String × α)) (k k' : String)
    (v : α) (h : k' ≠ k) : dictGet (dictInsert d k v) k' = dictGet d k' := by
  have h' : ¬ (k = k') := fun hh => h hh.symm
  induction d with
  | nil => simp [dictInsert, dictGet, h']
  | cons p rest ih =>
    obtain ⟨k0, v0⟩ := p
    by_cases hp : k0 = k
    · subst hp
      simp [dictInsert, dictGet, h']
    · by_cases hp' : k0 = k'
      · subst hp'
        simp [dictInsert, dictGet, hp]
      · simp [dictInsert, dictGet, hp, hp', ih]

/-- A bulk fetch leaves keys outside the fetched batch unchanged. -/
theorem fetch_get_of_not_mem (s : MarketUtilsState) (now : ℚ)
    (data : List MarketInfo) (k : String)
    (h : k ∉ data.map MarketInfo.name) :
    dictGet (fetch_and_cache_all_markets s now (some data)).market_cache k =
      dictGet s.market_cache k ∧
    dictGet (fetch_and_cache_all_markets s now (some data)).cache_timestamps
      k = dictGet s.cache_timestamps k := by
  induction data generalizing s with
  | nil => exact ⟨rfl, rfl⟩
  | cons m rest ih =>
    have hk : k ≠ m.name := by
      intro hh
      exact h (by simp [hh])
    have h' : k ∉ rest.map MarketInfo.name := by
      intro hh
      exact h (by simp [hh])
    have step := ih
      { market_cache := dictInsert s.market_cache m.name m,
        cache_timestamps := dictInsert s.cache_timestamps m.name now } h'
    refine ⟨?_, ?_⟩
    · rw [show fetch_and_cache_all_markets s now (some (m :: rest)) =
        fetch_and_cache_all_markets
          { market_cache := dictInsert s.market_cache m.name m,
            cache_timestamps := dictInsert s.cache_timestamps m.name now }
          now (some rest) from rfl]
      rw [step.1]
      exact dictGet_insert_ne _ _ _ _ hk
    · rw [show fetch_and_cache_all_markets s now (some (m :: rest)) =
        fetch_and_cache_all_markets
          { market_cache := dictInsert s.market_cache m.name m,
            cache_timestamps := dictInsert s.cache_timestamps m.name now }
          now (some rest) from rfl]
      rw [step.2]
      exact dictGet_insert_ne _ _ _ _ hk

/-- After a successful bulk fetch whose market names are distinct, every
fetched market is cached under its name with the fetch time as timestamp. -/
theorem fetch_get_mem (s : MarketUtilsState) (now : ℚ)
    (data : List MarketInfo) :
    (data.map MarketInfo.name).Nodup → ∀ mi ∈ data,
    dictGet (fetch_and_cache_all_markets s now (some data)).market_cache
      mi.name = some mi ∧
    dictGet (fetch_and_cache_all_markets s now (some data)).cache_timestamps
      mi.name = some now := by
  induction data generalizing s with
  | nil =>
    intro _ mi hmi
    cases hmi
  | cons m rest ih =>
    intro hnd mi hmi
    rw [List.map_cons] at hnd
    have hstep : fetch_and_cache_all_markets s now (some (m :: rest)) =
        fetch_and_cache_all_markets
          { market_cache := dictInsert s.market_cache m.name m,
            cache_timestamps := dictInsert s.cache_timestamps m.name now }
          now (some rest) := rfl
    rcases List.mem_cons.mp hmi with hmi | hmi
    · subst hmi
      have hnm : mi.name ∉ rest.map MarketInfo.name :=
        (List.nodup_cons.mp hnd).1
      have huntouched := fetch_get_of_not_mem
        { market_cache := dictInsert s.market_cache mi.name mi,
          cache_timestamps := dictInsert s.cache_timestamps mi.name now }
        now rest mi.name hnm
      rw [hstep]
      refine ⟨?_, ?_⟩
      · rw [huntouched.1]
        exact dictGet_insert_self _ _ _
      · rw [huntouched.2]
        exact dictGet_insert_self _ _ _
    · rw [hstep]
      exact ih _ (List.nodup_cons.mp hnd).2 mi hmi

/-- A fresh metadata cache entry, used by the C5 witness. -/
def muEx : MarketUtilsState :=
  { market_cache := [("BTC-USD", infoEx)],
    cache_timestamps := [("BTC-USD", 100)] }

/-- C5: `get_market_object` returns a fresh entry (age < 60s, with the
positive timestamp a real `time.time()` write leaves) without fetching and
without touching the cache; in every other case it performs exactly one bulk
fetch, after which (on a successful response with distinct names) every
fetched entry is rewritten with the fetch time as its new timestamp, and the
possibly refreshed entry for the market — present or absent — is returned. -/
theorem claim_C5_metadata_cache_get :
    (∀ (s : MarketUtilsState) (market_name : String) (now : ℚ)
       (response : Option (List MarketInfo)) (m : MarketInfo) (ts : ℚ),
       dictGet s.market_cache market_name = some m →
       dictGet s.cache_timestamps market_name = some ts →
       0 < ts → now - ts < 60 →
       get_market_object s market_name now response = (some m, s, 0)) ∧
    (∀ (s : MarketUtilsState) (market_name : String) (now : ℚ)
       (response : Option (List MarketInfo)),
       (∀ m ts, dictGet s.market_cache market_name = some m →
          dictGet s.cache_timestamps market_name = some ts →
          ts = 0 ∨ 60 ≤ now - ts) →
       get_market_object s market_name now response =
         (dictGet (fetch_and_cache_all_markets s now response).market_cache
            market_name,
          fetch_and_cache_all_markets s now response, 1)) ∧
    (∀ (s : MarketUtilsState) (now : ℚ) (data : List MarketInfo),
       (data.map MarketInfo.name).Nodup → ∀ mi ∈ data,
       dictGet (fetch_and_cache_all_markets s now (some data)).market_cache
         mi.name = some mi ∧
       dictGet
         (fetch_and_cache_all_markets s now (some data)).cache_timestamps
         mi.name = some now) := by
  refine ⟨?_, ?_, fetch_get_mem⟩
  · intro s market_name now response m ts h1 h2 h3 h4
    simp only [get_market_object, h1, h2]
    rw [if_pos ⟨h3.ne', h4⟩]
  · intro s market_name now response h
    rcases h1 : dictGet s.market_cache market_name with _ | m <;>
      rcases h2 : dictGet s.cache_timestamps market_name with _ | ts <;>
      simp only [get_market_object, h1, h2]
    rw [if_neg]
    rcases h m ts h1 h2 with h0 | h60
    · exact fun hc => hc.1 h0
    · exact fun hc => absurd hc.2 (not_lt.mpr h60)

/-- Witness for C5: a fresh BTC-USD entry (written at time 100, read at time
130) is served from the cache with no fetch. -/
theorem claim_C5_metadata_cache_get_witness :
    get_market_object muEx "BTC-USD" 130 none = (some infoEx, muEx, 0) :=
  claim_C5_metadata_cache_get.1 muEx "BTC-USD" 130 none infoEx 100 rfl rfl
    (by norm_num) (by norm_num)

/-- An empty metadata cache. -/
def muEmpty : MarketUtilsState := { market_cache := [], cache_timestamps := [] }

/-- A market with a small parseable volume. -/
def infoLow : MarketInfo :=
  { name := "AAA-USD", trading_config := none, last_price := 1,
    daily_volume := some 5 }

/-- A market whose volume is missing or unparseable. -/
def infoBad : MarketInfo :=
  { name := "BAD-USD", trading_config := none, last_price := 1,
    daily_volume := none }

/-- A market with volume zero (non-positive but parseable). -/
def infoZero : MarketInfo :=
  { name := "ZRO-USD", trading_config := none, last_price := 1,
    daily_volume := some 0 }

/-- A populated cache out of volume order, including an unparseable entry. -/
def muMixed : MarketUtilsState :=
  { market_cache := [("AAA-USD", infoLow), ("BAD-USD", infoBad),
      ("BTC-USD", infoEx)],
    cache_timestamps := [("AAA-USD", 100), ("BAD-USD", 100),
      ("BTC-USD", 100)] }

/-- A cache holding a zero-volume market next to a high-volume one. -/
def muZero : MarketUtilsState :=
  { market_cache := [("ZRO-USD", infoZero), ("BTC-USD", infoEx)],
    cache_timestamps := [("ZRO-USD", 100), ("BTC-USD", 100)] }

/-- C7 counterexample: three behaviours of `get_markets` contradict the
claim.  On an empty cache no bulk refresh is performed (fetch count 0) and []
is returned even though the available response holds a market; with `topN`
absent the raw cached list is returned — unsorted (volume 5 before volume
1000) and with the unparseable-volume entry still present; and with `topN`
given, a zero (non-positive) volume entry is included in the sorted result
rather than excluded. -/
theorem claim_C7_counterexample :
    get_markets muEmpty none 1000 (some [infoEx]) = ([], muEmpty, 0) ∧
    get_markets muMixed none 110 none =
      ([infoLow, infoBad, infoEx], muMixed, 0) ∧
    get_markets muZero (some 2) 110 none = ([infoEx, infoZero], muZero, 0) := by
  refine ⟨rfl, ?_, ?_⟩
  · norm_num [get_markets, get_markets_refresh, muMixed, infoLow, infoBad,
      infoEx, List.any_cons, List.any_nil]
    intro h
    exact absurd h (List.cons_ne_nil _ _)
  · norm_num [get_markets, get_markets_refresh, muZero, infoZero, infoEx,
      List.any_cons, List.any_nil, sortByVolume, List.insertionSort,
      List.orderedInsert]
    intro h
    exact absurd h (List.cons_ne_nil _ _)

/-- The state and fetch count returned by `get_markets` are exactly those of
its refresh step. -/
theorem get_markets_snd (s : MarketUtilsState) (top_n : Option ℕ) (now : ℚ)
    (response : Option (List MarketInfo)) :
    (get_markets s top_n now response).2 =
      get_markets_refresh s now response := by
  cases top_n <;> simp only [get_markets] <;> split <;> rfl

/-- The stable sort is a permutation of its input. -/
theorem sortByVolume_perm (l : List (MarketInfo × ℚ)) :
    List.Perm (sortByVolume l) l :=
  List.perm_insertionSort _ l

/-- The stable sort yields pairwise descending volumes. -/
theorem sortByVolume_sorted (l : List (MarketInfo × ℚ)) :
    List.Pairwise (fun a b => b.2 ≤ a.2) (sortByVolume l) := by
  haveI h1 : IsTotal (MarketInfo × ℚ) (fun a b => b.2 ≤ a.2) :=
    ⟨fun a b => le_total b.2 a.2⟩
  haveI h2 : IsTrans (MarketInfo × ℚ) (fun a b => b.2 ≤ a.2) :=
    ⟨fun _ _ _ hab hbc => le_trans hbc hab⟩
  exact List.sorted_insertionSort _ l

/-- Membership in the (market, volume) pair list built before sorting: the
market comes from the input list and its volume parsed to the pair's second
component. -/
theorem mem_volume_pairs (l : List MarketInfo) (p : MarketInfo × ℚ)
    (hp : p ∈ l.filterMap fun m => m.daily_volume.map fun v => (m, v)) :
    p.1 ∈ l ∧ p.1.daily_volume = some p.2 := by
  rw [List.mem_filterMap] at hp
  obtain ⟨m, hm, hmap⟩ := hp
  rcases hv : m.daily_volume with _ | v
  · rw [hv] at hmap
    cases hmap
  · rw [hv] at hmap
    obtain rfl : (m, v) = p := Option.some.inj hmap
    exact ⟨hm, hv⟩

/-- C7 amended: a bulk refresh is performed only when the cache is non-empty
and every timestamp is stale — an empty cache yields [] with no refresh, and
any fresh timestamp suppresses the refresh; without `topN` the raw cached
values are returned in insertion order, neither filtered nor sorted; with
`topN` the result keeps only entries whose volume parsed (non-positive
volumes are not excluded), sorted by descending volume and truncated to at
most `topN` entries drawn from the cache. -/
theorem claim_C7_get_markets_refresh_and_sort :
    (∀ (s : MarketUtilsState) (top_n : Option ℕ) (now : ℚ)
       (response : Option (List MarketInfo)),
       s.market_cache = [] →
       get_markets s top_n now response = ([], s, 0)) ∧
    (∀ (s : MarketUtilsState) (top_n : Option ℕ) (now : ℚ)
       (response : Option (List MarketInfo)),
       (∃ p ∈ s.cache_timestamps, now - p.2 < 60) →
       (get_markets s top_n now response).2.1 = s ∧
       (get_markets s top_n now response).2.2 = 0) ∧
    (∀ (s : MarketUtilsState) (top_n : Option ℕ) (now : ℚ)
       (response : Option (List MarketInfo)),
       s.market_cache ≠ [] → s.cache_timestamps ≠ [] →
       (∀ p ∈ s.cache_timestamps, 60 ≤ now - p.2) →
       (get_markets s top_n now response).2.1 =
         fetch_and_cache_all_markets s now response ∧
       (get_markets s top_n now response).2.2 = 1) ∧
    (∀ (s : MarketUtilsState) (now : ℚ)
       (response : Option (List MarketInfo)),
       (get_markets s none now response).1 =
         (get_markets_refresh s now response).1.market_cache.map Prod.snd) ∧
    (∀ (s : MarketUtilsState) (n : ℕ) (now : ℚ)
       (response : Option (List MarketInfo)),
       (get_markets s (some n) now response).1.length ≤ n ∧
       List.Pairwise
         (fun a b => b.daily_volume.getD 0 ≤ a.daily_volume.getD 0)
         (get_markets s (some n) now response).1 ∧
       ∀ x ∈ (get_markets s (some n) now response).1,
         x.daily_volume.isSome = true ∧
         x ∈ (get_markets_refresh s now response).1.market_cache.map
           Prod.snd) := by
  refine ⟨?_, ?_, ?_, ?_, ?_⟩
  · intro s top_n now response h
    have hr : get_markets_refresh s now response = (s, 0) := by
      rw [get_markets_refresh, if_neg]
      exact fun hc => hc.1 h
    cases top_n <;> simp [get_markets, hr, h]
  · intro s top_n now response hex
    obtain ⟨p, hp, hfresh⟩ := hex
    have hany : (s.cache_timestamps.any fun p => decide (now - p.2 < 60)) =
        true := by
      rw [List.any_eq_true]
      exact ⟨p, hp, by simpa using hfresh⟩
    have hr : get_markets_refresh s now response = (s, 0) := by
      rw [get_markets_refresh]
      split
      · simp [hany]
      · rfl
    have h2 : (get_markets s top_n now response).2 = (s, 0) := by
      rw [get_markets_snd, hr]
    exact ⟨congrArg Prod.fst h2, congrArg Prod.snd h2⟩
  · intro s top_n now response h1 h2 hstale
    have hnotany :
        ¬ (s.cache_timestamps.any fun p => decide (now - p.2 < 60)) =
          true := by
      rw [List.any_eq_true]
      rintro ⟨p, hp, hd⟩
      rw [decide_eq_true_eq] at hd
      exact absurd hd (not_lt.mpr (hstale p hp))
    have hr : get_markets_refresh s now response =
        (fetch_and_cache_all_markets s now response, 1) := by
      rw [get_markets_refresh, if_pos ⟨h1, h2⟩, if_pos hnotany]
    have hgm : (get_markets s top_n now response).2 =
        (fetch_and_cache_all_markets s now response, 1) := by
      rw [get_markets_snd, hr]
    exact ⟨congrArg Prod.fst hgm, congrArg Prod.snd hgm⟩
  · intro s now response
    simp only [get_markets]
    split
    · next hcond =>
        rw [hcond.2]
        rfl
    · rfl
  · intro s n now response
    simp only [get_markets]
    split
    · simp
    · refine ⟨?_, ?_, ?_⟩
      · rw [List.length_map, List.length_take]
        exact min_le_left _ _
      · rw [List.pairwise_map]
        have hfull : List.Pairwise
            (fun a b : MarketInfo × ℚ =>
              b.1.daily_volume.getD 0 ≤ a.1.daily_volume.getD 0)
            (sortByVolume
              (((get_markets_refresh s now
                  response).1.market_cache.map Prod.snd).filterMap
                fun m => m.daily_volume.map fun v => (m, v))) := by
          refine List.Pairwise.imp_of_mem ?_ (sortByVolume_sorted _)
          intro a b ha hb hab
          have ha' := (mem_volume_pairs _ a
            ((sortByVolume_perm _).mem_iff.mp ha)).2
          have hb' := (mem_volume_pairs _ b
            ((sortByVolume_perm _).mem_iff.mp hb)).2
          rw [ha', hb']
          exact hab
        exact hfull.sublist (List.take_sublist _ _)
      · intro x hx
        rw [List.mem_map] at hx
        obtain ⟨p, hp, rfl⟩ := hx
        have hmem : p ∈ sortByVolume
            (((get_markets_refresh s now
                response).1.market_cache.map Prod.snd).filterMap
              fun m => m.daily_volume.map fun v => (m, v)) :=
          List.take_subset _ _ hp
        have h := mem_volume_pairs _ p ((sortByVolume_perm _).mem_iff.mp hmem)
        refine ⟨?_, h.1⟩
        rw [h.2]
        rfl

/-- Witness for the amended C7: the empty cache returns [] with no refresh
even when `topN` is given, and a fully stale non-empty cache performs exactly
one refresh. -/
theorem claim_C7_get_markets_refresh_and_sort_witness :
    get_markets muEmpty (some 3) 5 none = ([], muEmpty, 0) ∧
    (get_markets muMixed none 200 (some [infoEx])).2.2 = 1 :=
  ⟨claim_C7_get_markets_refresh_and_sort.1 muEmpty (some 3) 5 none rfl,
   (claim_C7_get_markets_refresh_and_sort.2.2.1 muMixed none 200
      (some [infoEx]) (by decide) (by decide)
      (by
        intro p hp
        simp only [muMixed, List.mem_cons, List.not_mem_nil, or_false] at hp
        rcases hp with h | h | h <;> subst h <;> norm_num)).2⟩

end BotExt
